import Mathlib

/-!
Verification of the claude-permissions-hook core: the shell-statement
parser's command/operator extraction (`parser/shell.go`), the command
normalizer and signature builder (`GetCommandName`, `GetSubcommand`,
`CommandSignature`), and the rule matcher (`matcher/matcher.go`:
`MatchBashCommand`, `checkSingleCommand`, `matchBashRule`,
`matchCommandSignature`, `matchesExcludePatterns`).

Modelling conventions:
* Go strings are Lean `String`s; the Go `strings` helpers used by the
  source (`HasPrefix`, `HasSuffix`, `TrimSuffix`, `Contains`, `Split`)
  are modelled over the character list `String.data`.
* A compiled regular expression (`*regexp.Regexp`) is modelled as its
  matching function `String → Bool`.
* The third-party shell parser (`mvdan.cc/sh`) that
  `parser.ParseShellCommand` wraps is external to the repository; the
  matcher is therefore parameterised by a `parse` function producing
  either a syntax error or a `ShellStatement`.  The repository's own
  AST walk (`extractWithOperators` and the command-collection pass) is
  modelled explicitly over a fragment of the mvdan AST (call
  expressions, binary commands, statements, files) with the library's
  documented pre-order `Walk` traversal.
-/

namespace Hook

/-! ### Go string helpers (strings.HasPrefix / HasSuffix / TrimSuffix / Contains / Split) -/

/-- `strings.HasPrefix s pre` -/
def strStartsWith (s pre : String) : Bool :=
  pre.data.isPrefixOf s.data

/-- `strings.HasSuffix s suf` -/
def strEndsWith (s suf : String) : Bool :=
  suf.data.isSuffixOf s.data

/-- `strings.TrimSuffix s suf` -/
def strTrimSuffix (s suf : String) : String :=
  if strEndsWith s suf then ⟨s.data.take (s.data.length - suf.data.length)⟩ else s

/-- `strings.Contains s c` for a one-character needle -/
def strContainsChar (s : String) (c : Char) : Bool :=
  s.data.contains c

/-- `strings.Split name "/"`, as a list of character lists. -/
def splitOnSlash : List Char → List (List Char)
  | [] => [[]]
  | ch :: rest =>
    let r := splitOnSlash rest
    if ch == '/' then [] :: r
    else (ch :: r.headD []) :: r.tail

/-! ### Parser data model (`parser/shell.go`) -/

/-- `parser.ParsedCommand` -/
structure ParsedCommand where
  Name : String
  Args : List String
  Raw : String
  Operator : String
  deriving DecidableEq, Inhabited

/-- `parser.ShellStatement` -/
structure ShellStatement where
  Commands : List ParsedCommand
  Raw : String
  HasPipe : Bool
  HasBackground : Bool
  HasSubshell : Bool
  deriving DecidableEq, Inhabited

/-- `parser.GetCommandName`: strips any path prefix from `cmd.Name`. -/
def GetCommandName (cmd : ParsedCommand) : String :=
  let name := cmd.Name
  if strContainsChar name '/' then ⟨(splitOnSlash name.data).getLastD []⟩
  else name

/-- `parser.valueFlagsByCommand` / `parser.flagTakesValue` -/
def flagTakesValue (cmdName flag : String) : Bool :=
  if cmdName == "git" then
    flag == "-C" || flag == "--git-dir" || flag == "--work-tree" || flag == "-c"
  else if cmdName == "dotnet" then
    flag == "--project" || flag == "-p"
  else if cmdName == "glab" then
    flag == "-R" || flag == "--repo"
  else if cmdName == "gh" then
    flag == "-R" || flag == "--repo"
  else if cmdName == "timeout" then
    flag == "-k" || flag == "-s" || flag == "--signal" || flag == "--kill-after"
  else if cmdName == "sudo" then
    flag == "-u" || flag == "-g" || flag == "-h" || flag == "-p" || flag == "-U"
  else if cmdName == "env" then
    flag == "-u" || flag == "-C"
  else false

/-- `parser.subcommandCommands` / `parser.isSubcommandCommand` -/
def isSubcommandCommand (cmdName : String) : Bool :=
  ["git", "dotnet", "glab", "gh", "npm", "pnpm", "yarn", "cargo",
   "kubectl", "terraform", "docker", "az", "dotnet-ef"].contains cmdName

/-- `parser.isEnvAssignment` -/
def isEnvAssignment (arg : String) : Bool :=
  strContainsChar arg '=' && !strStartsWith arg "="

/-- `parser.isNumeric`: every rune in `'0'..'9'` and the string nonempty. -/
def isNumeric (s : String) : Bool :=
  s.data.all (fun c => '0' ≤ c && c ≤ '9') && !s.data.isEmpty

/-- The scanning loop of `parser.GetSubcommand` over `cmd.Args[1:]`:
skip flags (and, for registered value flags with a following token, that
token too); return the first non-flag token. -/
def scanSubcommand (cmdName : String) : List String → String
  | [] => ""
  | arg :: rest =>
    if strStartsWith arg "-" then
      if flagTakesValue cmdName arg && !rest.isEmpty then
        match rest with
        | [] => ""
        | _ :: rest2 => scanSubcommand cmdName rest2
      else
        scanSubcommand cmdName rest
    else arg

/-- `parser.GetSubcommand` -/
def GetSubcommand (cmd : ParsedCommand) : String :=
  if cmd.Args.length > 1 then
    scanSubcommand (GetCommandName cmd) (cmd.Args.drop 1)
  else ""

/-- The `wrappers` set local to `parser.CommandSignature`. -/
def isWrapper (name : String) : Bool :=
  ["timeout", "env", "sudo", "nice", "nohup", "time"].contains name

/-- The wrapper-target scan of `parser.CommandSignature`: over
`cmd.Args[1:]`, skip flags (and registered flag values), skip a numeric
duration for `timeout` and `KEY=VALUE` assignments for `env`; return the
argument tail starting at the inner command, or `none` if exhausted. -/
def findWrapperTarget (name : String) : List String → Option (List String)
  | [] => none
  | arg :: rest =>
    if strStartsWith arg "-" then
      if flagTakesValue name arg && !rest.isEmpty then
        match rest with
        | [] => none
        | _ :: rest2 => findWrapperTarget name rest2
      else
        findWrapperTarget name rest
    else if name == "timeout" && isNumeric arg then
      findWrapperTarget name rest
    else if name == "env" && isEnvAssignment arg then
      findWrapperTarget name rest
    else some (arg :: rest)



/-- `parser.CommandSignature` restricted to the non-wrapper tail
(the code after the wrapper branch). -/
def normalSignature (name : String) (cmd : ParsedCommand) : String :=
  if isSubcommandCommand name then
    let subCmd := GetSubcommand cmd
    if subCmd != "" && !strStartsWith subCmd "-" && !strStartsWith subCmd "/" then
      name ++ " " ++ subCmd
    else name
  else name

/-- `parser.CommandSignature` -/
def CommandSignature (cmd : ParsedCommand) : String :=
  let name := GetCommandName cmd
  if isWrapper name then
    match findWrapperTarget name (cmd.Args.drop 1) with
    | some actualArgs =>
      let actualCmd : ParsedCommand :=
        { Name := actualArgs.headD ""
          Args := actualArgs
          Raw := String.intercalate " " actualArgs
          Operator := "" }
      let actualName := GetCommandName actualCmd
      if isSubcommandCommand actualName then
        let subCmd := GetSubcommand actualCmd
        if subCmd != "" && !strStartsWith subCmd "-" && !strStartsWith subCmd "/" then
          name ++ " " ++ actualName ++ " " ++ subCmd
        else
          name ++ " " ++ actualName
      else
        name ++ " " ++ actualName
    | none => normalSignature name cmd
  else normalSignature name cmd

/-! ### AST fragment and the two walk passes of `parser.ParseShellCommand`

The repository's first pass collects a `ParsedCommand` from every
`*syntax.CallExpr` node, and `extractWithOperators` runs a second walk
that attaches operators.  `syntax.Walk` of mvdan.cc/sh visits a node
before its children (pre-order), a `BinaryCmd`'s left statement before
its right one, and a file's statements in order. -/

/-- The four `syntax.BinCmdOperator` values a `BinaryCmd` can carry. -/
inductive ShBinOp where
  | andStmt
  | orStmt
  | pipe
  | pipeAll
  deriving DecidableEq

mutual
/-- Fragment of the mvdan command node: a `CallExpr` whose argument
words are already flattened by `wordToString`, a `BinaryCmd`, or a
statement with no command node (`Stmt.Cmd == nil`, e.g. redirection-only). -/
inductive ShCmd where
  | call (args : List String) : ShCmd
  | binary (op : ShBinOp) (left right : ShStmt) : ShCmd
  | nocmd : ShCmd
  deriving DecidableEq

/-- mvdan `syntax.Stmt`: background flag plus the wrapped command. -/
inductive ShStmt where
  | mk (background : Bool) (cmd : ShCmd) : ShStmt
  deriving DecidableEq
end

/-- mvdan `syntax.File`: the top-level statement list. -/
structure ShFile where
  stmts : List ShStmt
  deriving DecidableEq

/-- `parser.extractCommand` applied to a CallExpr's flattened words. -/
def extractCommand (args : List String) : ParsedCommand :=
  { Name := args.headD ""
    Args := args
    Raw := String.intercalate " " args
    Operator := "" }

mutual
/-- First-pass collection over a statement (the `*syntax.CallExpr` case
of the first `syntax.Walk`): append each call whose name is nonempty. -/
def collectStmt : ShStmt → List ParsedCommand → List ParsedCommand
  | .mk _ c, acc => collectCmd c acc

/-- First-pass collection over a command node. -/
def collectCmd : ShCmd → List ParsedCommand → List ParsedCommand
  | .call args, acc =>
    let cmd := extractCommand args
    if cmd.Name != "" then acc ++ [cmd] else acc
  | .binary _ l r, acc => collectStmt r (collectStmt l acc)
  | .nocmd, acc => acc
end

/-- The commands collected by the first walk over a file. -/
def collectFile (f : ShFile) : List ParsedCommand :=
  f.stmts.foldl (fun acc s => collectStmt s acc) []

/-- State threaded through the second walk of
`parser.extractWithOperators`: the result slice and the running index. -/
structure OpState where
  result : List ParsedCommand
  idx : Nat
  deriving DecidableEq

/-- The operator string the second walk writes for a `BinaryCmd`. -/
def opStr : ShBinOp → String
  | .andStmt => "&&"
  | .orStmt => "||"
  | .pipe => "|"
  | .pipeAll => "|&"

/-- Go slice mutation `result[i].Operator = op`. -/
def setOperatorAt (l : List ParsedCommand) (i : Nat) (op : String) :
    List ParsedCommand :=
  l.set i { l.getD i default with Operator := op }

/-- The `*syntax.BinaryCmd` case of the second walk. -/
def visitBinary (op : ShBinOp) (st : OpState) : OpState :=
  if st.idx < st.result.length then
    { result := setOperatorAt st.result st.idx (opStr op), idx := st.idx + 1 }
  else st

/-- The `*syntax.Stmt` case of the second walk ("Handle
semicolon-separated statements"). -/
def visitStmt (st : OpState) : OpState :=
  if st.idx > 0 && st.idx < st.result.length &&
      (st.result.getD (st.idx - 1) default).Operator == "" then
    { result := setOperatorAt st.result (st.idx - 1) ";", idx := st.idx }
  else st

mutual
/-- Pre-order second walk over a statement: the node itself, then its
command. -/
def walk2Stmt : ShStmt → OpState → OpState
  | .mk _ c, st => walk2Cmd c (visitStmt st)

/-- Pre-order second walk over a command node: for a `BinaryCmd`, the
node itself, then the left statement, then the right one. -/
def walk2Cmd : ShCmd → OpState → OpState
  | .call _, st => st
  | .binary op l r, st => walk2Stmt r (walk2Stmt l (visitBinary op st))
  | .nocmd, st => st
end

/-- `parser.extractWithOperators` -/
def extractWithOperators (file : ShFile) (commands : List ParsedCommand) :
    List ParsedCommand :=
  if commands.isEmpty then commands
  else
    (file.stmts.foldl (fun st s => walk2Stmt s st)
      { result := commands, idx := 0 }).result

/-- The command/operator part of `parser.ParseShellCommand`: collect the
commands, then attach operators with the second walk. -/
def parseCommandsModel (file : ShFile) : List ParsedCommand :=
  extractWithOperators file (collectFile file)

/-! Specification-side characterization used to settle C6: the
pre-order sequence of `BinaryCmd` operator strings, and elementwise
assignment of that sequence onto a command list. -/

mutual
/-- Pre-order `BinaryCmd` operator strings below a statement. -/
def binOpsStmt : ShStmt → List String
  | .mk _ c => binOpsCmd c

/-- Pre-order `BinaryCmd` operator strings below a command node. -/
def binOpsCmd : ShCmd → List String
  | .call _ => []
  | .binary op l r => opStr op :: (binOpsStmt l ++ binOpsStmt r)
  | .nocmd => []
end

/-- Pre-order `BinaryCmd` operator strings of a whole file. -/
def binOpsFile (f : ShFile) : List String :=
  f.stmts.foldl (fun acc s => acc ++ binOpsStmt s) []

/-- Overwrite the operators of the first `min ops.length cmds.length`
commands with `ops`, elementwise. -/
def applyOps : List ParsedCommand → List String → List ParsedCommand
  | [], _ => []
  | c :: cs, [] => c :: cs
  | c :: cs, o :: os => { c with Operator := o } :: applyOps cs os

/-- The walk state reached after emitting the operator list `ops` onto
the initial command list `cmds`. -/
def mkSt (cmds : List ParsedCommand) (ops : List String) : OpState :=
  { result := applyOps cmds ops, idx := min ops.length cmds.length }

/-! ### Matcher data model (`matcher/matcher.go`, `config/config.go`) -/

/-- `matcher.Decision` (the three Go string constants). -/
inductive Decision where
  | allow
  | deny
  | passthrough
  deriving DecidableEq, Inhabited

/-- `matcher.MatchResult` -/
structure MatchResult where
  Decision : Decision
  Reason : String
  MatchedRule : String
  Details : String
  deriving DecidableEq, Inhabited

/-- `config.Rule` as the matcher consumes it: a compiled pattern
(`*regexp.Regexp`) is its matching function, an absent legacy regex is
`none`.  Fields not read by the Bash matcher (path patterns) are
omitted. -/
structure Rule where
  tool : String
  commands : List String
  commandPatterns : List (String → Bool)
  excludePatterns : List (String → Bool)
  cmdRegex : Option (String → Bool)
  cmdExcludeRegex : Option (String → Bool)
  description : String

/-- `config.Config` as the matcher consumes it. -/
structure Config where
  allow : List Rule
  deny : List Rule

/-- `matcher.matchCommandSignature`: the sequence of early returns of
the Go function. -/
def matchCommandSignature (pattern sig : String) (cmd : ParsedCommand) : Bool :=
  if pattern == sig then true
  else if strEndsWith pattern " *" && strStartsWith sig (strTrimSuffix pattern " *") then true
  else if strEndsWith pattern " *" && GetCommandName cmd == strTrimSuffix pattern " *" then true
  else if strContainsChar pattern ' ' && strStartsWith sig (pattern ++ " ") then true
  else if !strContainsChar pattern ' ' && pattern == GetCommandName cmd then true
  else false

/-- `matcher.matchesExcludePatterns` -/
def matchesExcludePatterns (rule : Rule) (command : String) : Bool :=
  rule.excludePatterns.any (fun re => re command)

/-- The loop over `rule.Commands` in `matcher.checkSingleCommand`; an
excluded match `continue`s with the next listed pattern. -/
def scanRuleCommands (rule : Rule) (sig : String) (cmd : ParsedCommand) :
    List String → Option MatchResult
  | [] => none
  | allowedCmd :: rest =>
    if matchCommandSignature allowedCmd sig cmd then
      if matchesExcludePatterns rule cmd.Raw then
        scanRuleCommands rule sig cmd rest
      else
        some { Decision := .allow
               Reason := "Command matches allowed signature"
               MatchedRule := rule.description
               Details := "Matched: " ++ allowedCmd }
    else scanRuleCommands rule sig cmd rest

/-- The loop over `rule.GetCompiledCommandPatterns()` in
`matcher.checkSingleCommand`. -/
def scanRulePatterns (rule : Rule) (cmd : ParsedCommand) :
    List (String → Bool) → Option MatchResult
  | [] => none
  | re :: rest =>
    if re cmd.Raw then
      if matchesExcludePatterns rule cmd.Raw then
        scanRulePatterns rule cmd rest
      else
        some { Decision := .allow
               Reason := "Command matches allowed pattern"
               MatchedRule := rule.description
               Details := "" }
    else scanRulePatterns rule cmd rest

/-- The legacy-regex branch of `matcher.checkSingleCommand`. -/
def checkLegacyRegex (rule : Rule) (cmd : ParsedCommand) : Option MatchResult :=
  match rule.cmdRegex with
  | some re =>
    if re cmd.Raw then
      match rule.cmdExcludeRegex with
      | some excl =>
        if excl cmd.Raw then none
        else some { Decision := .allow
                    Reason := "Command matches allowed regex"
                    MatchedRule := rule.description
                    Details := "" }
      | none => some { Decision := .allow
                       Reason := "Command matches allowed regex"
                       MatchedRule := rule.description
                       Details := "" }
    else none
  | none => none

/-- The allow-rule loop of `matcher.checkSingleCommand`. -/
def checkAllowRules (sig : String) (cmd : ParsedCommand) :
    List Rule → Option MatchResult
  | [] => none
  | rule :: rest =>
    if rule.tool != "Bash" then checkAllowRules sig cmd rest
    else
      match scanRuleCommands rule sig cmd rule.commands with
      | some r => some r
      | none =>
        match scanRulePatterns rule cmd rule.commandPatterns with
        | some r => some r
        | none =>
          match checkLegacyRegex rule cmd with
          | some r => some r
          | none => checkAllowRules sig cmd rest

/-- `matcher.checkSingleCommand` -/
def checkSingleCommand (cfg : Config) (cmd : ParsedCommand) : MatchResult :=
  let sig := CommandSignature cmd
  match checkAllowRules sig cmd cfg.allow with
  | some r => r
  | none =>
    { Decision := .passthrough
      Reason := "No allow rule matched"
      MatchedRule := ""
      Details := "Command signature: " ++ sig }

/-- `matcher.matchBashRule` -/
def matchBashRule (rule : Rule) (fullCmd : String) (stmt : ShellStatement) : Bool :=
  let sigScan : Bool :=
    stmt.Commands.any fun cmd =>
      rule.commands.any fun deniedCmd =>
        matchCommandSignature deniedCmd (CommandSignature cmd) cmd
  if rule.commandPatterns.any (fun re => re fullCmd) then true
  else
    match rule.cmdRegex with
    | some re =>
      if re fullCmd then
        match rule.cmdExcludeRegex with
        | some excl => !excl fullCmd
        | none => true
      else sigScan
    | none => sigScan

/-- The subshell pre-check of `matcher.MatchBashCommand` (lines 52-69):
the first Bash deny rule one of whose exclude patterns matches the raw
command text. -/
def findSubshellDeny (command : String) : List Rule → Option MatchResult
  | [] => none
  | rule :: rest =>
    if rule.tool != "Bash" then findSubshellDeny command rest
    else if rule.excludePatterns.any (fun excl => excl command) then
      some { Decision := .deny
             Reason := "Command contains denied pattern"
             MatchedRule := rule.description
             Details := "Subshell detected and matched exclude pattern" }
    else findSubshellDeny command rest

/-- The deny-rule loop of `matcher.MatchBashCommand` (lines 72-83). -/
def findDenyRule (command : String) (stmt : ShellStatement) : List Rule → Option MatchResult
  | [] => none
  | rule :: rest =>
    if rule.tool != "Bash" then findDenyRule command stmt rest
    else if matchBashRule rule command stmt then
      some { Decision := .deny
             Reason := "Command matched deny rule"
             MatchedRule := rule.description
             Details := "" }
    else findDenyRule command stmt rest

/-- The compound loop of `matcher.MatchBashCommand` (lines 86-102):
the first command whose single-command check is not Allow. -/
def firstNotAllowed (cfg : Config) : List ParsedCommand → Option ParsedCommand
  | [] => none
  | cmd :: rest =>
    if (checkSingleCommand cfg cmd).Decision != .allow then some cmd
    else firstNotAllowed cfg rest

/-- `matcher.MatchBashCommand`.  `parse` stands for
`parser.ParseShellCommand` (a wrapper over the third-party mvdan.cc/sh
parser); an error result models a returned `error`. -/
def MatchBashCommand (parse : String → Except String ShellStatement)
    (cfg : Config) (command : String) : MatchResult :=
  match parse command with
  | .error e =>
    { Decision := .passthrough
      Reason := "Failed to parse command"
      MatchedRule := ""
      Details := e }
  | .ok stmt =>
    match (if stmt.HasSubshell then findSubshellDeny command cfg.deny else none) with
    | some r => r
    | none =>
      match findDenyRule command stmt cfg.deny with
      | some r => r
      | none =>
        if stmt.Commands.length > 1 then
          match firstNotAllowed cfg stmt.Commands with
          | some cmd =>
            { Decision := .passthrough
              Reason := "Not all commands in compound statement are allowed"
              MatchedRule := ""
              Details := "Command not allowed: " ++ cmd.Raw }
          | none =>
            { Decision := .allow
              Reason := "All commands in compound statement are allowed"
              MatchedRule := ""
              Details := "" }
        else if stmt.Commands.length == 1 then
          checkSingleCommand cfg (stmt.Commands.headD default)
        else
          { Decision := .passthrough
            Reason := "No commands parsed"
            MatchedRule := ""
            Details := "" }

/-! ### Helper lemmas -/

theorem strEndsWith_append_self (p suf : String) : strEndsWith (p ++ suf) suf = true := by
  simp [strEndsWith, String.data_append, List.isSuffixOf_iff_suffix]

theorem strTrimSuffix_append_self (p suf : String) : strTrimSuffix (p ++ suf) suf = p := by
  apply String.ext
  simp only [strTrimSuffix, strEndsWith_append_self, if_true, String.data_append,
    List.length_append, Nat.add_sub_cancel]
  exact List.take_left p.data suf.data

/-! ### C4: parse failure is never Allow -/

/-- C4: for every input string the shell parser rejects,
`MatchBashCommand` returns exactly the Passthrough result with the
classification-failure reason (so in particular neither Allow nor
Deny), propagating no error. -/
theorem parse_failure_is_passthrough
    (parse : String → Except String ShellStatement) (cfg : Config)
    (command e : String) (h : parse command = .error e) :
    MatchBashCommand parse cfg command =
      { Decision := .passthrough, Reason := "Failed to parse command",
        MatchedRule := "", Details := e } ∧
    (MatchBashCommand parse cfg command).Decision = .passthrough := by
  unfold MatchBashCommand
  rw [h]
  exact ⟨rfl, rfl⟩

/-- A parse function rejecting every input, standing for the mvdan
parser on a syntactically invalid command line. -/
def failParse : String → Except String ShellStatement :=
  fun _ => .error "unbalanced quotes"

/-- Witness for C4 at a concrete rejected input. -/
theorem parse_failure_is_passthrough_witness :
    MatchBashCommand failParse { allow := [], deny := [] } "echo \"oops" =
      { Decision := .passthrough, Reason := "Failed to parse command",
        MatchedRule := "", Details := "unbalanced quotes" } :=
  (parse_failure_is_passthrough failParse { allow := [], deny := [] }
    "echo \"oops" "unbalanced quotes" rfl).1

/-! ### C10: wildcard patterns match by string prefix, not word prefix -/

/-- A command whose base name merely begins with `git`. -/
def githubCmd : ParsedCommand :=
  { Name := "github", Args := ["github", "pr"], Raw := "github pr", Operator := "" }

/-- An allow rule whose only literal pattern is the wildcard `git *`. -/
def gitWildcardRule : Rule :=
  { tool := "Bash", commands := ["git *"], commandPatterns := [],
    excludePatterns := [], cmdRegex := none, cmdExcludeRegex := none,
    description := "any git command" }

/-- Configuration with only the `git *` allow rule. -/
def gitWildcardCfg : Config := { allow := [gitWildcardRule], deny := [] }

/-- C10: a literal pattern `p ++ " *"` matches every command whose
signature has `p` as a string prefix (not only as a whole word); in
particular `git *` matches the base name `github` and causes Allow. -/
theorem wildcard_prefix_overmatch :
    (∀ (p sig : String) (cmd : ParsedCommand), strStartsWith sig p = true →
      matchCommandSignature (p ++ " *") sig cmd = true) ∧
    matchCommandSignature "git *" "github" githubCmd = true ∧
    (checkSingleCommand gitWildcardCfg githubCmd).Decision = .allow := by
  refine ⟨?_, by decide, by decide⟩
  intro p sig cmd h
  cases h1 : (p ++ " *") == sig with
  | true => simp [matchCommandSignature, h1]
  | false => simp [matchCommandSignature, h1, strEndsWith_append_self,
      strTrimSuffix_append_self, h]

/-- Witness for C10: the general part applied at `p = "git"`,
`sig = "github"`. -/
theorem wildcard_prefix_overmatch_witness :
    strStartsWith "github" "git" = true ∧
    matchCommandSignature ("git" ++ " *") "github" githubCmd = true :=
  ⟨by decide, wildcard_prefix_overmatch.1 "git" "github" githubCmd (by decide)⟩

/-! ### C5: wrapper signature idempotence for numeric timeout durations -/

theorem isNumeric_not_dash (s : String) (h : isNumeric s = true) :
    strStartsWith s "-" = false := by
  unfold isNumeric at h
  rw [Bool.and_eq_true, List.all_eq_true] at h
  unfold strStartsWith
  cases hd : s.data with
  | nil => rw [hd] at h; simp at h
  | cons c t =>
    rw [hd] at h
    have hc : '0' ≤ c := by
      have := h.1 c (by simp)
      simp only [Bool.and_eq_true, decide_eq_true_eq] at this
      exact this.1
    show (['-'].isPrefixOf (c :: t)) = false
    simp only [List.isPrefixOf, Bool.and_eq_false_iff, beq_eq_false_iff_ne]
    left
    intro he
    rw [← he] at hc
    exact absurd hc (by decide)

theorem timeout_signature_general (n raw op : String) (rest : List String)
    (hn : isNumeric n = true) :
    CommandSignature
      { Name := "timeout", Args := "timeout" :: n :: "dotnet" :: "run" :: rest,
        Raw := raw, Operator := op } = "timeout dotnet run" := by
  have hnd : strStartsWith n "-" = false := isNumeric_not_dash n hn
  have hd1 : strStartsWith "dotnet" "-" = false := by decide
  have hd2 : isNumeric "dotnet" = false := by decide
  have hd3 : ("timeout" == "env") = false := by decide
  have hfw : findWrapperTarget "timeout" (n :: "dotnet" :: "run" :: rest) =
      some ("dotnet" :: "run" :: rest) := by
    simp [findWrapperTarget, hnd, hn, hd1, hd2, hd3]
  have hgcn : GetCommandName
      { Name := "timeout", Args := "timeout" :: n :: "dotnet" :: "run" :: rest,
        Raw := raw, Operator := op } = "timeout" := rfl
  have hgcn2 : GetCommandName
      { Name := "dotnet", Args := "dotnet" :: "run" :: rest,
        Raw := String.intercalate " " ("dotnet" :: "run" :: rest),
        Operator := "" } = "dotnet" := rfl
  have hgsub : GetSubcommand
      { Name := "dotnet", Args := "dotnet" :: "run" :: rest,
        Raw := String.intercalate " " ("dotnet" :: "run" :: rest),
        Operator := "" } = "run" := by
    unfold GetSubcommand
    rw [if_pos]
    · rw [hgcn2]
      have hr : strStartsWith "run" "-" = false := by decide
      rw [scanSubcommand.eq_def]
      simp [hr]
    · simp only [List.length_cons]
      omega
  have hw : isWrapper "timeout" = true := by decide
  have hsc : isSubcommandCommand "dotnet" = true := by decide
  simp only [CommandSignature, hgcn, hw, if_true, List.drop_succ_cons, List.drop_zero,
    hfw, List.headD_cons, hgcn2, hsc, hgsub]
  decide

/-- C5: the command signature of `timeout N dotnet run ...` is
`"timeout dotnet run"` for every numeric duration token `N` and every
trailing argument list; in particular for the durations 30, 45 and 120
from the spec. -/
theorem wrapper_signature_idempotence :
    (∀ (n raw op : String) (rest : List String), isNumeric n = true →
      CommandSignature
        { Name := "timeout", Args := "timeout" :: n :: "dotnet" :: "run" :: rest,
          Raw := raw, Operator := op } = "timeout dotnet run") ∧
    CommandSignature
      { Name := "timeout", Args := ["timeout", "30", "dotnet", "run"],
        Raw := "timeout 30 dotnet run", Operator := "" } = "timeout dotnet run" ∧
    CommandSignature
      { Name := "timeout", Args := ["timeout", "45", "dotnet", "run"],
        Raw := "timeout 45 dotnet run", Operator := "" } = "timeout dotnet run" ∧
    CommandSignature
      { Name := "timeout", Args := ["timeout", "120", "dotnet", "run", "--project", "x"],
        Raw := "timeout 120 dotnet run --project x", Operator := "" } = "timeout dotnet run" :=
  ⟨timeout_signature_general, by decide, by decide, by decide⟩

/-- Witness for C5: the general part applied at `N = "30"`. -/
theorem wrapper_signature_idempotence_witness :
    isNumeric "30" = true ∧
    CommandSignature
      { Name := "timeout", Args := "timeout" :: "30" :: "dotnet" :: "run" :: [],
        Raw := "timeout 30 dotnet run", Operator := "" } = "timeout dotnet run" :=
  ⟨by decide, wrapper_signature_idempotence.1 "30" "timeout 30 dotnet run" "" [] (by decide)⟩

/-! ### C8: signature stability under flag (and value-flag) skipping -/

theorem GetSubcommand_eq_scan (cmd : ParsedCommand) (a : String) (l : List String)
    (hargs : cmd.Args = a :: l) :
    GetSubcommand cmd = scanSubcommand (GetCommandName cmd) l := by
  unfold GetSubcommand
  rw [hargs]
  cases l with
  | nil => simp [scanSubcommand]
  | cons b bs =>
    rw [if_pos]
    · simp
    · simp only [List.length_cons]
      omega

theorem signature_skips_value_flag (name flag v raw1 op1 raw2 op2 : String)
    (rest : List String)
    (hslash : strContainsChar name '/' = false)
    (hwrap : isWrapper name = false)
    (hdash : strStartsWith flag "-" = true)
    (hval : flagTakesValue name flag = true) :
    CommandSignature
      { Name := name, Args := name :: flag :: v :: rest, Raw := raw1, Operator := op1 } =
    CommandSignature
      { Name := name, Args := name :: rest, Raw := raw2, Operator := op2 } := by
  have hg1 : GetCommandName
      { Name := name, Args := name :: flag :: v :: rest, Raw := raw1, Operator := op1 } = name := by
    unfold GetCommandName
    simp [hslash]
  have hg2 : GetCommandName
      { Name := name, Args := name :: rest, Raw := raw2, Operator := op2 } = name := by
    unfold GetCommandName
    simp [hslash]
  have hscan : scanSubcommand name (flag :: v :: rest) = scanSubcommand name rest := by
    rw [scanSubcommand.eq_def]
    simp [hdash, hval]
  have e1 : GetSubcommand
      { Name := name, Args := name :: flag :: v :: rest, Raw := raw1, Operator := op1 } =
      scanSubcommand name rest := by
    rw [GetSubcommand_eq_scan _ name (flag :: v :: rest) rfl, hg1, hscan]
  have e2 : GetSubcommand
      { Name := name, Args := name :: rest, Raw := raw2, Operator := op2 } =
      scanSubcommand name rest := by
    rw [GetSubcommand_eq_scan _ name rest rfl, hg2]
  simp only [CommandSignature, hg1, hg2, hwrap, Bool.false_eq_true, if_false,
    normalSignature, e1, e2]

theorem signature_skips_plain_flag (name flag raw1 op1 raw2 op2 : String)
    (rest : List String)
    (hslash : strContainsChar name '/' = false)
    (hwrap : isWrapper name = false)
    (hdash : strStartsWith flag "-" = true)
    (hval : flagTakesValue name flag = false) :
    CommandSignature
      { Name := name, Args := name :: flag :: rest, Raw := raw1, Operator := op1 } =
    CommandSignature
      { Name := name, Args := name :: rest, Raw := raw2, Operator := op2 } := by
  have hg1 : GetCommandName
      { Name := name, Args := name :: flag :: rest, Raw := raw1, Operator := op1 } = name := by
    unfold GetCommandName
    simp [hslash]
  have hg2 : GetCommandName
      { Name := name, Args := name :: rest, Raw := raw2, Operator := op2 } = name := by
    unfold GetCommandName
    simp [hslash]
  have hscan : scanSubcommand name (flag :: rest) = scanSubcommand name rest := by
    rw [scanSubcommand.eq_def]
    simp [hdash, hval]
  have e1 : GetSubcommand
      { Name := name, Args := name :: flag :: rest, Raw := raw1, Operator := op1 } =
      scanSubcommand name rest := by
    rw [GetSubcommand_eq_scan _ name (flag :: rest) rfl, hg1, hscan]
  have e2 : GetSubcommand
      { Name := name, Args := name :: rest, Raw := raw2, Operator := op2 } =
      scanSubcommand name rest := by
    rw [GetSubcommand_eq_scan _ name rest rfl, hg2]
  simp only [CommandSignature, hg1, hg2, hwrap, Bool.false_eq_true, if_false,
    normalSignature, e1, e2]

/-- C8: the command signature is unchanged when a flag is removed
together with its value (for flags registered as value-taking for the
base command) or alone (for unregistered flags), for every non-wrapper
base name without a path prefix; in particular `git -c x.y=z commit`
and `git commit` both yield the signature `git commit`. -/
theorem signature_stable_under_value_flags :
    (∀ (name flag v raw1 op1 raw2 op2 : String) (rest : List String),
      strContainsChar name '/' = false → isWrapper name = false →
      strStartsWith flag "-" = true → flagTakesValue name flag = true →
      CommandSignature
        { Name := name, Args := name :: flag :: v :: rest, Raw := raw1, Operator := op1 } =
      CommandSignature
        { Name := name, Args := name :: rest, Raw := raw2, Operator := op2 }) ∧
    (∀ (name flag raw1 op1 raw2 op2 : String) (rest : List String),
      strContainsChar name '/' = false → isWrapper name = false →
      strStartsWith flag "-" = true → flagTakesValue name flag = false →
      CommandSignature
        { Name := name, Args := name :: flag :: rest, Raw := raw1, Operator := op1 } =
      CommandSignature
        { Name := name, Args := name :: rest, Raw := raw2, Operator := op2 }) ∧
    CommandSignature
      { Name := "git", Args := ["git", "-c", "x.y=z", "commit"],
        Raw := "git -c x.y=z commit", Operator := "" } = "git commit" ∧
    CommandSignature
      { Name := "git", Args := ["git", "commit"],
        Raw := "git commit", Operator := "" } = "git commit" :=
  ⟨signature_skips_value_flag, signature_skips_plain_flag, by decide, by decide⟩

/-- Witness for C8: the value-flag part applied at `git -c x.y=z commit`. -/
theorem signature_stable_under_value_flags_witness :
    CommandSignature
      { Name := "git", Args := "git" :: "-c" :: "x.y=z" :: ["commit"],
        Raw := "git -c x.y=z commit", Operator := "" } =
    CommandSignature
      { Name := "git", Args := "git" :: ["commit"],
        Raw := "git commit", Operator := "" } :=
  signature_stable_under_value_flags.1 "git" "-c" "x.y=z"
    "git -c x.y=z commit" "" "git commit" "" ["commit"]
    (by decide) (by decide) (by decide) (by decide)

/-! ### Matcher loop lemmas -/

theorem findSubshellDeny_some (command : String) (rules : List Rule) (res : MatchResult)
    (h : findSubshellDeny command rules = some res) :
    res.Decision = .deny ∧
    res.Details = "Subshell detected and matched exclude pattern" ∧
    ∃ r ∈ rules, r.tool = "Bash" ∧ res.MatchedRule = r.description ∧
      r.excludePatterns.any (fun excl => excl command) = true := by
  induction rules with
  | nil => simp [findSubshellDeny] at h
  | cons rule rest ih =>
    simp only [findSubshellDeny] at h
    by_cases ht : (rule.tool != "Bash") = true
    · rw [if_pos ht] at h
      obtain ⟨a, b, r, hrm, hrest⟩ := ih h
      exact ⟨a, b, r, List.mem_cons_of_mem _ hrm, hrest⟩
    · rw [if_neg ht] at h
      have htool : rule.tool = "Bash" := by simpa using ht
      by_cases he : (rule.excludePatterns.any fun excl => excl command) = true
      · rw [if_pos he] at h
        cases h
        exact ⟨rfl, rfl, rule, List.mem_cons_self _ _, htool, rfl, he⟩
      · rw [if_neg he] at h
        obtain ⟨a, b, r, hrm, hrest⟩ := ih h
        exact ⟨a, b, r, List.mem_cons_of_mem _ hrm, hrest⟩

theorem findSubshellDeny_isSome (command : String) (rules : List Rule) (r : Rule)
    (hr : r ∈ rules) (ht : r.tool = "Bash")
    (he : r.excludePatterns.any (fun excl => excl command) = true) :
    ∃ res, findSubshellDeny command rules = some res := by
  induction rules with
  | nil => cases hr
  | cons rule rest ih =>
    simp only [findSubshellDeny]
    by_cases h1 : (rule.tool != "Bash") = true
    · rw [if_pos h1]
      rcases List.mem_cons.mp hr with heq | hmem
      · subst heq; rw [ht] at h1; simp at h1
      · exact ih hmem
    · rw [if_neg h1]
      by_cases h2 : (rule.excludePatterns.any fun excl => excl command) = true
      · rw [if_pos h2]; exact ⟨_, rfl⟩
      · rw [if_neg h2]
        rcases List.mem_cons.mp hr with heq | hmem
        · subst heq; exact absurd he h2
        · exact ih hmem

theorem findDenyRule_some (command : String) (stmt : ShellStatement)
    (rules : List Rule) (res : MatchResult)
    (h : findDenyRule command stmt rules = some res) :
    res.Decision = .deny ∧
    res.Reason = "Command matched deny rule" ∧
    ∃ r ∈ rules, r.tool = "Bash" ∧ matchBashRule r command stmt = true ∧
      res.MatchedRule = r.description := by
  induction rules with
  | nil => simp [findDenyRule] at h
  | cons rule rest ih =>
    simp only [findDenyRule] at h
    by_cases ht : (rule.tool != "Bash") = true
    · rw [if_pos ht] at h
      obtain ⟨a, b, r, hrm, hrest⟩ := ih h
      exact ⟨a, b, r, List.mem_cons_of_mem _ hrm, hrest⟩
    · rw [if_neg ht] at h
      have htool : rule.tool = "Bash" := by simpa using ht
      by_cases hm : (matchBashRule rule command stmt) = true
      · rw [if_pos hm] at h
        cases h
        exact ⟨rfl, rfl, rule, List.mem_cons_self _ _, htool, hm, rfl⟩
      · rw [if_neg hm] at h
        obtain ⟨a, b, r, hrm, hrest⟩ := ih h
        exact ⟨a, b, r, List.mem_cons_of_mem _ hrm, hrest⟩

theorem findDenyRule_isSome (command : String) (stmt : ShellStatement)
    (rules : List Rule) (r : Rule)
    (hr : r ∈ rules) (ht : r.tool = "Bash")
    (hm : matchBashRule r command stmt = true) :
    ∃ res, findDenyRule command stmt rules = some res := by
  induction rules with
  | nil => cases hr
  | cons rule rest ih =>
    simp only [findDenyRule]
    by_cases h1 : (rule.tool != "Bash") = true
    · rw [if_pos h1]
      rcases List.mem_cons.mp hr with heq | hmem
      · subst heq; rw [ht] at h1; simp at h1
      · exact ih hmem
    · rw [if_neg h1]
      by_cases h2 : (matchBashRule rule command stmt) = true
      · rw [if_pos h2]; exact ⟨_, rfl⟩
      · rw [if_neg h2]
        rcases List.mem_cons.mp hr with heq | hmem
        · subst heq; exact absurd hm h2
        · exact ih hmem

theorem findDenyRule_eq_none (command : String) (stmt : ShellStatement)
    (rules : List Rule)
    (h : ∀ r ∈ rules, r.tool = "Bash" → matchBashRule r command stmt = false) :
    findDenyRule command stmt rules = none := by
  induction rules with
  | nil => rfl
  | cons rule rest ih =>
    simp only [findDenyRule]
    by_cases h1 : (rule.tool != "Bash") = true
    · rw [if_pos h1]
      exact ih fun r hr => h r (List.mem_cons_of_mem _ hr)
    · rw [if_neg h1]
      have htool : rule.tool = "Bash" := by simpa using h1
      have hm := h rule (List.mem_cons_self _ _) htool
      rw [hm]
      simp only [Bool.false_eq_true, if_false]
      exact ih fun r hr => h r (List.mem_cons_of_mem _ hr)

theorem firstNotAllowed_some (cfg : Config) (cmds : List ParsedCommand)
    (c : ParsedCommand) (h : firstNotAllowed cfg cmds = some c) :
    c ∈ cmds ∧ (checkSingleCommand cfg c).Decision ≠ .allow := by
  induction cmds with
  | nil => simp [firstNotAllowed] at h
  | cons cmd rest ih =>
    simp only [firstNotAllowed] at h
    by_cases h1 : ((checkSingleCommand cfg cmd).Decision != .allow) = true
    · rw [if_pos h1] at h
      cases h
      exact ⟨List.mem_cons_self _ _, by simpa using h1⟩
    · rw [if_neg h1] at h
      obtain ⟨hm, hne⟩ := ih h
      exact ⟨List.mem_cons_of_mem _ hm, hne⟩

theorem firstNotAllowed_eq_none_iff (cfg : Config) (cmds : List ParsedCommand) :
    firstNotAllowed cfg cmds = none ↔
      ∀ cmd ∈ cmds, (checkSingleCommand cfg cmd).Decision = .allow := by
  induction cmds with
  | nil => simp [firstNotAllowed]
  | cons cmd rest ih =>
    simp only [firstNotAllowed]
    by_cases h1 : ((checkSingleCommand cfg cmd).Decision != .allow) = true
    · rw [if_pos h1]
      constructor
      · intro hsome; cases hsome
      · intro hall
        have := hall cmd (List.mem_cons_self _ _)
        rw [this] at h1
        simp at h1
    · rw [if_neg h1]
      have hc : (checkSingleCommand cfg cmd).Decision = .allow := by simpa using h1
      rw [ih]
      constructor
      · intro hall c hm
        rcases List.mem_cons.mp hm with heq | hmem
        · subst heq; exact hc
        · exact hall c hmem
      · intro hall c hm
        exact hall c (List.mem_cons_of_mem _ hm)

/-! ### C1: deny precedence -/

theorem deny_precedence_general
    (parse : String → Except String ShellStatement) (cfg : Config)
    (command : String) (stmt : ShellStatement) (r : Rule)
    (hparse : parse command = .ok stmt)
    (hmem : r ∈ cfg.deny) (htool : r.tool = "Bash")
    (hmatch : matchBashRule r command stmt = true) :
    (MatchBashCommand parse cfg command).Decision = .deny ∧
    ∃ rule ∈ cfg.deny, rule.tool = "Bash" ∧
      (MatchBashCommand parse cfg command).MatchedRule = rule.description ∧
      (matchBashRule rule command stmt = true ∨
       rule.excludePatterns.any (fun excl => excl command) = true) := by
  simp only [MatchBashCommand, hparse]
  cases hss : (if stmt.HasSubshell then findSubshellDeny command cfg.deny else none) with
  | some res =>
    have hfs : findSubshellDeny command cfg.deny = some res := by
      cases hb : stmt.HasSubshell
      · rw [hb] at hss; simp at hss
      · rw [hb] at hss; simpa using hss
    obtain ⟨hd, _hdet, rule, hrm, hrt, hmr, hre⟩ :=
      findSubshellDeny_some command cfg.deny res hfs
    exact ⟨hd, rule, hrm, hrt, hmr, Or.inr hre⟩
  | none =>
    obtain ⟨res, hres⟩ := findDenyRule_isSome command stmt cfg.deny r hmem htool hmatch
    rw [hres]
    obtain ⟨hd, _hr, rule, hrm, hrt, hmat, hmr⟩ :=
      findDenyRule_some command stmt cfg.deny res hres
    exact ⟨hd, rule, hrm, hrt, hmr, Or.inl hmat⟩

/-- The parsed statement for `git push origin main`. -/
def gitPushOriginMainCmd : ParsedCommand :=
  { Name := "git", Args := ["git", "push", "origin", "main"],
    Raw := "git push origin main", Operator := "" }

/-- The parsed statement for `git status`. -/
def gitStatusCmd : ParsedCommand :=
  { Name := "git", Args := ["git", "status"], Raw := "git status", Operator := "" }

/-- Deny rule listing the literal signature `git push`. -/
def denyGitPushRule : Rule :=
  { tool := "Bash", commands := ["git push"], commandPatterns := [],
    excludePatterns := [], cmdRegex := none, cmdExcludeRegex := none,
    description := "deny git push" }

/-- Allow rule listing the bare name `git`. -/
def allowGitRule : Rule :=
  { tool := "Bash", commands := ["git"], commandPatterns := [],
    excludePatterns := [], cmdRegex := none, cmdExcludeRegex := none,
    description := "allow git" }

/-- Configuration with deny={git push}, allow={git}. -/
def gitCfg : Config := { allow := [allowGitRule], deny := [denyGitPushRule] }

/-- Parse results for the two spec examples, matching what the mvdan
parser produces for these simple commands (cf. `shell_test.go`). -/
def gitParse : String → Except String ShellStatement := fun s =>
  if s == "git push origin main" then
    .ok { Commands := [gitPushOriginMainCmd], Raw := s,
          HasPipe := false, HasBackground := false, HasSubshell := false }
  else if s == "git status" then
    .ok { Commands := [gitStatusCmd], Raw := s,
          HasPipe := false, HasBackground := false, HasSubshell := false }
  else .error "unsupported"

/-- C1: if any Bash deny rule matches (via `matchBashRule`: a compiled
command-regex on the raw statement text or a literal command pattern on
some parsed command's signature), the decision is Deny with a matching
deny rule's description, regardless of allow rules; in particular with
deny={git push}, allow={git}: `git push origin main` is denied and
`git status` allowed. -/
theorem deny_precedence :
    (∀ (parse : String → Except String ShellStatement) (cfg : Config)
      (command : String) (stmt : ShellStatement) (r : Rule),
      parse command = .ok stmt → r ∈ cfg.deny → r.tool = "Bash" →
      matchBashRule r command stmt = true →
      (MatchBashCommand parse cfg command).Decision = .deny ∧
      ∃ rule ∈ cfg.deny, rule.tool = "Bash" ∧
        (MatchBashCommand parse cfg command).MatchedRule = rule.description ∧
        (matchBashRule rule command stmt = true ∨
         rule.excludePatterns.any (fun excl => excl command) = true)) ∧
    (MatchBashCommand gitParse gitCfg "git push origin main").Decision = .deny ∧
    (MatchBashCommand gitParse gitCfg "git push origin main").MatchedRule =
      denyGitPushRule.description ∧
    (MatchBashCommand gitParse gitCfg "git status").Decision = .allow :=
  ⟨deny_precedence_general, by decide, by decide, by decide⟩

/-- Witness for C1: the general part applied at the `git push origin
main` example. -/
theorem deny_precedence_witness :
    (MatchBashCommand gitParse gitCfg "git push origin main").Decision = .deny :=
  (deny_precedence.1 gitParse gitCfg "git push origin main"
    { Commands := [gitPushOriginMainCmd], Raw := "git push origin main",
      HasPipe := false, HasBackground := false, HasSubshell := false }
    denyGitPushRule rfl (by simp [gitCfg]) rfl (by decide)).1

/-! ### C9: subshell fast-deny via deny rules' exclude patterns -/

theorem subshell_fast_deny_general
    (parse : String → Except String ShellStatement) (cfg : Config)
    (command : String) (stmt : ShellStatement) (r : Rule)
    (hparse : parse command = .ok stmt)
    (hsub : stmt.HasSubshell = true)
    (hmem : r ∈ cfg.deny) (htool : r.tool = "Bash")
    (he : r.excludePatterns.any (fun excl => excl command) = true) :
    ∃ res, findSubshellDeny command cfg.deny = some res ∧
      MatchBashCommand parse cfg command = res ∧
      res.Decision = .deny ∧
      res.Details = "Subshell detected and matched exclude pattern" ∧
      ∃ rule ∈ cfg.deny, rule.tool = "Bash" ∧ res.MatchedRule = rule.description ∧
        rule.excludePatterns.any (fun excl => excl command) = true := by
  obtain ⟨res, hres⟩ := findSubshellDeny_isSome command cfg.deny r hmem htool he
  obtain ⟨hd, hdet, hexist⟩ := findSubshellDeny_some command cfg.deny res hres
  refine ⟨res, hres, ?_, hd, hdet, hexist⟩
  simp only [MatchBashCommand, hparse, hsub, if_true, hres]

/-- A deny rule blocking `$(...)` substitution through its exclude
pattern (the regex `\$\(` modelled by its matching function). -/
def denySubstRule : Rule :=
  { tool := "Bash", commands := [], commandPatterns := [],
    excludePatterns := [fun s => strContainsChar s '$'],
    cmdRegex := none, cmdExcludeRegex := none,
    description := "no command substitution" }

/-- Configuration whose only deny rule is `denySubstRule`; the allow
rule would permit `echo`. -/
def substCfg : Config :=
  { allow := [{ tool := "Bash", commands := ["echo"], commandPatterns := [],
                excludePatterns := [], cmdRegex := none, cmdExcludeRegex := none,
                description := "allow echo" }],
    deny := [denySubstRule] }

/-- The parse of `echo $(whoami)`: one `echo` command whose
substitution argument is flattened to the `$(...)` placeholder, with
`HasSubshell` set (cf. `shell_test.go`). -/
def substParse : String → Except String ShellStatement := fun s =>
  if s == "echo $(whoami)" then
    .ok { Commands := [{ Name := "echo", Args := ["echo", "$(...)"],
                         Raw := "echo $(...)", Operator := "" }],
          Raw := s, HasPipe := false, HasBackground := false, HasSubshell := true }
  else .error "unsupported"

/-- C9: when the parsed statement has `HasSubshell`, the matcher first
tests every Bash deny rule's exclude patterns (not its command
patterns) against the full raw command text, and a match returns that
Deny result directly — before the deny command-pattern loop and before
any allow rule. -/
theorem subshell_fast_deny :
    ∀ (parse : String → Except String ShellStatement) (cfg : Config)
      (command : String) (stmt : ShellStatement) (r : Rule),
      parse command = .ok stmt → stmt.HasSubshell = true →
      r ∈ cfg.deny → r.tool = "Bash" →
      r.excludePatterns.any (fun excl => excl command) = true →
      ∃ res, findSubshellDeny command cfg.deny = some res ∧
        MatchBashCommand parse cfg command = res ∧
        res.Decision = .deny ∧
        res.Details = "Subshell detected and matched exclude pattern" ∧
        ∃ rule ∈ cfg.deny, rule.tool = "Bash" ∧ res.MatchedRule = rule.description ∧
          rule.excludePatterns.any (fun excl => excl command) = true :=
  subshell_fast_deny_general

/-- Witness for C9 at `echo $(whoami)` with the substitution deny
rule: the decision is Deny even though `echo` is allowed. -/
theorem subshell_fast_deny_witness :
    (MatchBashCommand substParse substCfg "echo $(whoami)").Decision = .deny := by
  obtain ⟨res, _hfs, heq, hd, _⟩ := subshell_fast_deny substParse substCfg
    "echo $(whoami)"
    { Commands := [{ Name := "echo", Args := ["echo", "$(...)"],
                     Raw := "echo $(...)", Operator := "" }],
      Raw := "echo $(whoami)", HasPipe := false, HasBackground := false,
      HasSubshell := true }
    denySubstRule rfl rfl (by simp [substCfg]) rfl (by decide)
  rw [heq, hd]

/-! ### C2: compound all-or-nothing -/

theorem compound_all_or_nothing_general
    (parse : String → Except String ShellStatement) (cfg : Config)
    (command : String) (stmt : ShellStatement)
    (hparse : parse command = .ok stmt)
    (hlen : stmt.Commands.length > 1)
    (hss : stmt.HasSubshell = true → findSubshellDeny command cfg.deny = none)
    (hdeny : ∀ r ∈ cfg.deny, r.tool = "Bash" → matchBashRule r command stmt = false) :
    ((MatchBashCommand parse cfg command).Decision = .allow ↔
      ∀ cmd ∈ stmt.Commands, (checkSingleCommand cfg cmd).Decision = .allow) ∧
    ((MatchBashCommand parse cfg command).Decision = .allow ∨
     (MatchBashCommand parse cfg command).Decision = .passthrough) := by
  have h1 : (if stmt.HasSubshell then findSubshellDeny command cfg.deny else none) = none := by
    cases hb : stmt.HasSubshell
    · simp
    · simpa using hss hb
  have h2 : findDenyRule command stmt cfg.deny = none :=
    findDenyRule_eq_none command stmt cfg.deny hdeny
  simp only [MatchBashCommand, hparse, h1, h2]
  rw [if_pos hlen]
  cases hfn : firstNotAllowed cfg stmt.Commands with
  | some c =>
    obtain ⟨hcm, hcne⟩ := firstNotAllowed_some cfg stmt.Commands c hfn
    refine ⟨⟨fun h => absurd h (by simp), fun hall => absurd (hall c hcm) hcne⟩, Or.inr rfl⟩
  | none =>
    have hall := (firstNotAllowed_eq_none_iff cfg stmt.Commands).mp hfn
    exact ⟨⟨fun _ => hall, fun _ => rfl⟩, Or.inl rfl⟩

/-- C2: for a compound statement (more than one parsed command) on
which the deny phase does not fire, the decision is Allow exactly when
every individual command independently resolves to Allow under the
allow-rule pass, and is otherwise Passthrough — never Deny. -/
theorem compound_all_or_nothing :
    ∀ (parse : String → Except String ShellStatement) (cfg : Config)
      (command : String) (stmt : ShellStatement),
      parse command = .ok stmt → stmt.Commands.length > 1 →
      (stmt.HasSubshell = true → findSubshellDeny command cfg.deny = none) →
      (∀ r ∈ cfg.deny, r.tool = "Bash" → matchBashRule r command stmt = false) →
      ((MatchBashCommand parse cfg command).Decision = .allow ↔
        ∀ cmd ∈ stmt.Commands, (checkSingleCommand cfg cmd).Decision = .allow) ∧
      ((MatchBashCommand parse cfg command).Decision = .allow ∨
       (MatchBashCommand parse cfg command).Decision = .passthrough) :=
  compound_all_or_nothing_general

/-- The parsed commands of `git add -A && git commit -m msg`. -/
def gitAddACmd : ParsedCommand :=
  { Name := "git", Args := ["git", "add", "-A"], Raw := "git add -A", Operator := "&&" }

/-- Second command of the compound example. -/
def gitCommitCmd : ParsedCommand :=
  { Name := "git", Args := ["git", "commit", "-m", "msg"],
    Raw := "git commit -m msg", Operator := "" }

/-- Allow rule listing the signatures `git add` and `git commit`. -/
def allowAddCommitRule : Rule :=
  { tool := "Bash", commands := ["git add", "git commit"], commandPatterns := [],
    excludePatterns := [], cmdRegex := none, cmdExcludeRegex := none,
    description := "allow add and commit" }

/-- Configuration with only the add/commit allow rule. -/
def addCommitCfg : Config := { allow := [allowAddCommitRule], deny := [] }

/-- Parse of the compound statement `git add -A && git commit -m msg`
(cf. `shell_test.go`: two commands joined by `&&`). -/
def compoundParse : String → Except String ShellStatement := fun s =>
  if s == "git add -A && git commit -m msg" then
    .ok { Commands := [gitAddACmd, gitCommitCmd], Raw := s,
          HasPipe := false, HasBackground := false, HasSubshell := false }
  else .error "unsupported"

/-- Witness for C2: both compound commands are allowed, so the
theorem's equivalence yields Allow at the concrete input. -/
theorem compound_all_or_nothing_witness :
    (MatchBashCommand compoundParse addCommitCfg
      "git add -A && git commit -m msg").Decision = .allow :=
  ((compound_all_or_nothing compoundParse addCommitCfg
    "git add -A && git commit -m msg"
    { Commands := [gitAddACmd, gitCommitCmd], Raw := "git add -A && git commit -m msg",
      HasPipe := false, HasBackground := false, HasSubshell := false }
    rfl (by decide) (fun h => nomatch h) (by simp [addCommitCfg])).1).mpr (by decide)

/-! ### C7 (corrected): zero parsed commands -/

/-- Parse of the assignment-only input `FOO=1`: a successfully parsed
statement with zero commands. -/
def assignParse : String → Except String ShellStatement := fun s =>
  if s == "FOO=1" then
    .ok { Commands := [], Raw := s,
          HasPipe := false, HasBackground := false, HasSubshell := false }
  else .error "unsupported"

/-- A deny rule whose compiled command pattern (regex `^FOO=1$`)
matches the raw text `FOO=1`. -/
def denyFooRule : Rule :=
  { tool := "Bash", commands := [], commandPatterns := [fun s => s == "FOO=1"],
    excludePatterns := [], cmdRegex := none, cmdExcludeRegex := none,
    description := "no FOO assignment" }

/-- Configuration with only the FOO deny rule. -/
def fooCfg : Config := { allow := [], deny := [denyFooRule] }

/-- Counterexample to C7 as stated: `FOO=1` parses successfully to a
statement with zero commands, yet with a deny rule whose command
pattern matches the raw text the decision is Deny, not Passthrough. -/
theorem zero_commands_counterexample :
    assignParse "FOO=1" =
      .ok { Commands := [], Raw := "FOO=1",
            HasPipe := false, HasBackground := false, HasSubshell := false } ∧
    (MatchBashCommand assignParse fooCfg "FOO=1").Decision = .deny ∧
    (MatchBashCommand assignParse fooCfg "FOO=1").Decision ≠ .passthrough :=
  ⟨rfl, by decide, by decide⟩

/-- C7 as amended: a successfully parsed statement with zero commands
yields exactly the Passthrough result with reason "No commands parsed"
provided the deny phase does not fire; and in every case the decision
is Passthrough or Deny — never Allow. -/
theorem zero_commands_passthrough
    (parse : String → Except String ShellStatement) (cfg : Config)
    (command : String) (stmt : ShellStatement)
    (hparse : parse command = .ok stmt)
    (hzero : stmt.Commands = []) :
    ((stmt.HasSubshell = true → findSubshellDeny command cfg.deny = none) →
     (∀ r ∈ cfg.deny, r.tool = "Bash" → matchBashRule r command stmt = false) →
     MatchBashCommand parse cfg command =
       { Decision := .passthrough, Reason := "No commands parsed",
         MatchedRule := "", Details := "" }) ∧
    ((MatchBashCommand parse cfg command).Decision = .passthrough ∨
     (MatchBashCommand parse cfg command).Decision = .deny) := by
  constructor
  · intro hss hdeny
    have h1 : (if stmt.HasSubshell then findSubshellDeny command cfg.deny else none) = none := by
      cases hb : stmt.HasSubshell
      · simp
      · simpa using hss hb
    have h2 : findDenyRule command stmt cfg.deny = none :=
      findDenyRule_eq_none command stmt cfg.deny hdeny
    simp [MatchBashCommand, hparse, h1, h2, hzero]
  · simp only [MatchBashCommand, hparse]
    cases hss : (if stmt.HasSubshell then findSubshellDeny command cfg.deny else none) with
    | some res =>
      have hfs : findSubshellDeny command cfg.deny = some res := by
        cases hb : stmt.HasSubshell
        · rw [hb] at hss; simp at hss
        · rw [hb] at hss; simpa using hss
      obtain ⟨hd, _⟩ := findSubshellDeny_some command cfg.deny res hfs
      exact Or.inr hd
    | none =>
      cases hdr : findDenyRule command stmt cfg.deny with
      | some res =>
        obtain ⟨hd, _⟩ := findDenyRule_some command stmt cfg.deny res hdr
        exact Or.inr hd
      | none =>
        rw [hzero]
        exact Or.inl rfl

/-- Witness for C7's amended theorem: with an empty rule set, `FOO=1`
resolves to Passthrough with reason "No commands parsed". -/
theorem zero_commands_passthrough_witness :
    MatchBashCommand assignParse { allow := [], deny := [] } "FOO=1" =
      { Decision := .passthrough, Reason := "No commands parsed",
        MatchedRule := "", Details := "" } :=
  (zero_commands_passthrough assignParse { allow := [], deny := [] } "FOO=1"
    { Commands := [], Raw := "FOO=1",
      HasPipe := false, HasBackground := false, HasSubshell := false }
    rfl rfl).1 (fun h => nomatch h) (by simp)

/-! ### C3: exclude-pattern veto forfeits the rule, never denies -/

theorem scanRuleCommands_excluded (rule : Rule) (sig : String) (cmd : ParsedCommand)
    (hex : matchesExcludePatterns rule cmd.Raw = true) :
    ∀ l : List String, scanRuleCommands rule sig cmd l = none := by
  intro l
  induction l with
  | nil => rfl
  | cons p rest ih =>
    simp only [scanRuleCommands]
    by_cases hm : (matchCommandSignature p sig cmd) = true
    · rw [if_pos hm, if_pos hex]; exact ih
    · rw [if_neg hm]; exact ih

theorem scanRulePatterns_excluded (rule : Rule) (cmd : ParsedCommand)
    (hex : matchesExcludePatterns rule cmd.Raw = true) :
    ∀ l : List (String → Bool), scanRulePatterns rule cmd l = none := by
  intro l
  induction l with
  | nil => rfl
  | cons re rest ih =>
    simp only [scanRulePatterns]
    by_cases hm : (re cmd.Raw) = true
    · rw [if_pos hm, if_pos hex]; exact ih
    · rw [if_neg hm]; exact ih

theorem scanRuleCommands_some (rule : Rule) (sig : String) (cmd : ParsedCommand)
    (l : List String) (r : MatchResult)
    (h : scanRuleCommands rule sig cmd l = some r) : r.Decision = .allow := by
  induction l with
  | nil => simp [scanRuleCommands] at h
  | cons p rest ih =>
    simp only [scanRuleCommands] at h
    by_cases hm : (matchCommandSignature p sig cmd) = true
    · rw [if_pos hm] at h
      by_cases he : (matchesExcludePatterns rule cmd.Raw) = true
      · rw [if_pos he] at h; exact ih h
      · rw [if_neg he] at h; cases h; rfl
    · rw [if_neg hm] at h; exact ih h

theorem scanRulePatterns_some (rule : Rule) (cmd : ParsedCommand)
    (l : List (String → Bool)) (r : MatchResult)
    (h : scanRulePatterns rule cmd l = some r) : r.Decision = .allow := by
  induction l with
  | nil => simp [scanRulePatterns] at h
  | cons re rest ih =>
    simp only [scanRulePatterns] at h
    by_cases hm : (re cmd.Raw) = true
    · rw [if_pos hm] at h
      by_cases he : (matchesExcludePatterns rule cmd.Raw) = true
      · rw [if_pos he] at h; exact ih h
      · rw [if_neg he] at h; cases h; rfl
    · rw [if_neg hm] at h; exact ih h

theorem checkLegacyRegex_some (rule : Rule) (cmd : ParsedCommand) (r : MatchResult)
    (h : checkLegacyRegex rule cmd = some r) : r.Decision = .allow := by
  unfold checkLegacyRegex at h
  cases h1 : rule.cmdRegex with
  | none => simp [h1] at h
  | some re =>
    simp only [h1] at h
    by_cases h2 : (re cmd.Raw) = true
    · rw [if_pos h2] at h
      cases h3 : rule.cmdExcludeRegex with
      | none => simp only [h3] at h; cases h; rfl
      | some excl =>
        simp only [h3] at h
        by_cases h4 : (excl cmd.Raw) = true
        · rw [if_pos h4] at h; cases h
        · rw [if_neg h4] at h; cases h; rfl
    · rw [if_neg h2] at h; cases h

theorem checkAllowRules_some (sig : String) (cmd : ParsedCommand)
    (rules : List Rule) (r : MatchResult)
    (h : checkAllowRules sig cmd rules = some r) : r.Decision = .allow := by
  induction rules with
  | nil => simp [checkAllowRules] at h
  | cons rule rest ih =>
    simp only [checkAllowRules] at h
    by_cases ht : (rule.tool != "Bash") = true
    · rw [if_pos ht] at h; exact ih h
    · rw [if_neg ht] at h
      cases h1 : scanRuleCommands rule sig cmd rule.commands with
      | some r1 =>
        rw [h1] at h; cases h
        exact scanRuleCommands_some rule sig cmd rule.commands _ h1
      | none =>
        rw [h1] at h
        cases h2 : scanRulePatterns rule cmd rule.commandPatterns with
        | some r2 =>
          rw [h2] at h; cases h
          exact scanRulePatterns_some rule cmd rule.commandPatterns _ h2
        | none =>
          rw [h2] at h
          cases h3 : checkLegacyRegex rule cmd with
          | some r3 => rw [h3] at h; cases h; exact checkLegacyRegex_some rule cmd _ h3
          | none => rw [h3] at h; exact ih h

theorem exclude_veto_skip (sig : String) (cmd : ParsedCommand) (rule : Rule)
    (rest : List Rule)
    (htool : rule.tool = "Bash")
    (_hmatch : rule.commands.any (fun p => matchCommandSignature p sig cmd) = true ∨
               rule.commandPatterns.any (fun re => re cmd.Raw) = true)
    (hex : matchesExcludePatterns rule cmd.Raw = true)
    (hleg : rule.cmdRegex = none) :
    checkAllowRules sig cmd (rule :: rest) = checkAllowRules sig cmd rest := by
  simp only [checkAllowRules]
  have ht : (rule.tool != "Bash") = false := by simp [htool]
  rw [ht]
  simp only [Bool.false_eq_true, if_false]
  rw [scanRuleCommands_excluded rule sig cmd hex rule.commands,
      scanRulePatterns_excluded rule cmd hex rule.commandPatterns]
  simp [checkLegacyRegex, hleg]

/-- Exclude patterns for `;` and `&` (each compiled regex modelled by
its matching function on the raw text). -/
def semiExcl : String → Bool := fun s => strContainsChar s ';'

/-- The `&` exclude pattern. -/
def ampExcl : String → Bool := fun s => strContainsChar s '&'

/-- Allow rule `{commands:[git add], exclude_patterns:[";", "&"]}`. -/
def gitAddExclRule : Rule :=
  { tool := "Bash", commands := ["git add"], commandPatterns := [],
    excludePatterns := [semiExcl, ampExcl], cmdRegex := none,
    cmdExcludeRegex := none, description := "git add without separators" }

/-- Configuration with only the guarded `git add` allow rule. -/
def vetoCfg : Config := { allow := [gitAddExclRule], deny := [] }

/-- First command of the veto example (`;`-joined commands get no
operator attached, cf. C6). -/
def vetoAddCmd : ParsedCommand :=
  { Name := "git", Args := ["git", "add", "-A"], Raw := "git add -A", Operator := "" }

/-- Second command of the veto example. -/
def rmRfCmd : ParsedCommand :=
  { Name := "rm", Args := ["rm", "-rf", "/"], Raw := "rm -rf /", Operator := "" }

/-- Parse of `git add -A; rm -rf /` into its two commands. -/
def vetoParse : String → Except String ShellStatement := fun s =>
  if s == "git add -A; rm -rf /" then
    .ok { Commands := [vetoAddCmd, rmRfCmd], Raw := s,
          HasPipe := false, HasBackground := false, HasSubshell := false }
  else .error "unsupported"

/-- A single command whose own raw text contains a semicolon, so the
rule's `;` exclude pattern fires against it. -/
def semiRawCmd : ParsedCommand :=
  { Name := "git", Args := ["git", "add", "-A;", "rm", "-rf", "/"],
    Raw := "git add -A; rm -rf /", Operator := "" }

/-- C3: an allow rule whose patterns match but whose exclude patterns
match the command's raw text is forfeited — evaluation continues with
the remaining allow rules; the allow pass can only ever produce Allow
or Passthrough (never Deny), exhausting all rules gives the
Passthrough result; and the `git add -A; rm -rf /` example under
`{commands:[git add], exclude_patterns:[";","&"]}` yields
Passthrough. -/
theorem exclude_pattern_veto :
    (∀ (sig : String) (cmd : ParsedCommand) (rule : Rule) (rest : List Rule),
      rule.tool = "Bash" →
      (rule.commands.any (fun p => matchCommandSignature p sig cmd) = true ∨
       rule.commandPatterns.any (fun re => re cmd.Raw) = true) →
      matchesExcludePatterns rule cmd.Raw = true →
      rule.cmdRegex = none →
      checkAllowRules sig cmd (rule :: rest) = checkAllowRules sig cmd rest) ∧
    (∀ (cfg : Config) (cmd : ParsedCommand),
      checkAllowRules (CommandSignature cmd) cmd cfg.allow = none →
      checkSingleCommand cfg cmd =
        { Decision := .passthrough, Reason := "No allow rule matched",
          MatchedRule := "",
          Details := "Command signature: " ++ CommandSignature cmd }) ∧
    (∀ (cfg : Config) (cmd : ParsedCommand),
      (checkSingleCommand cfg cmd).Decision = .allow ∨
      (checkSingleCommand cfg cmd).Decision = .passthrough) ∧
    (MatchBashCommand vetoParse vetoCfg "git add -A; rm -rf /").Decision =
      .passthrough := by
  refine ⟨exclude_veto_skip, ?_, ?_, by decide⟩
  · intro cfg cmd h
    simp [checkSingleCommand, h]
  · intro cfg cmd
    simp only [checkSingleCommand]
    cases hc : checkAllowRules (CommandSignature cmd) cmd cfg.allow with
    | some r => exact Or.inl (checkAllowRules_some _ _ _ _ hc)
    | none => exact Or.inr rfl

/-- Witness for C3: the forfeit equation applied to a command whose
raw text contains `;`, under the guarded `git add` rule. -/
theorem exclude_pattern_veto_witness :
    checkAllowRules "git add" semiRawCmd [gitAddExclRule] =
      checkAllowRules "git add" semiRawCmd [] :=
  exclude_pattern_veto.1 "git add" semiRawCmd gitAddExclRule []
    rfl (Or.inl (by decide)) (by decide) rfl

/-! ### C6: operator attachment by the second walk -/

theorem applyOps_nil_ops (cmds : List ParsedCommand) : applyOps cmds [] = cmds := by
  cases cmds <;> rfl

theorem applyOps_length (cmds : List ParsedCommand) (ops : List String) :
    (applyOps cmds ops).length = cmds.length := by
  induction cmds generalizing ops with
  | nil => simp [applyOps]
  | cons c cs ih =>
    cases ops with
    | nil => rfl
    | cons o os => simp only [applyOps, List.length_cons, ih]

theorem applyOps_getD (cmds : List ParsedCommand) (ops : List String) (j : Nat)
    (h1 : j < ops.length) (h2 : j < cmds.length) :
    (applyOps cmds ops).getD j default =
      { cmds.getD j default with Operator := ops.getD j "" } := by
  induction cmds generalizing ops j with
  | nil => simp at h2
  | cons c cs ih =>
    cases ops with
    | nil => simp at h1
    | cons o os =>
      cases j with
      | zero => rfl
      | succ j' =>
        simp only [applyOps, List.getD_cons_succ]
        exact ih os j' (Nat.lt_of_succ_lt_succ h1) (Nat.lt_of_succ_lt_succ h2)

theorem applyOps_append_lt (cmds : List ParsedCommand) (ops : List String) (o : String)
    (h : ops.length < cmds.length) :
    applyOps cmds (ops ++ [o]) = setOperatorAt (applyOps cmds ops) ops.length o := by
  induction cmds generalizing ops with
  | nil => simp at h
  | cons c cs ih =>
    cases ops with
    | nil =>
      simp only [List.nil_append, applyOps, applyOps_nil_ops, List.length_nil,
        setOperatorAt, List.getD_cons_zero, List.set_cons_zero]
    | cons o' os =>
      simp only [List.cons_append, applyOps, List.length_cons, List.append_eq]
      rw [ih os (Nat.lt_of_succ_lt_succ h)]
      simp only [setOperatorAt, List.getD_cons_succ, List.set_cons_succ]

theorem applyOps_append_ge (cmds : List ParsedCommand) (ops : List String) (o : String)
    (h : cmds.length ≤ ops.length) :
    applyOps cmds (ops ++ [o]) = applyOps cmds ops := by
  induction cmds generalizing ops with
  | nil => simp [applyOps]
  | cons c cs ih =>
    cases ops with
    | nil => simp at h
    | cons o' os =>
      simp only [List.cons_append, applyOps, List.append_eq]
      rw [ih os (Nat.le_of_succ_le_succ h)]

theorem getD_mem_of_lt (l : List String) (j : Nat) (d : String) (h : j < l.length) :
    l.getD j d ∈ l := by
  rw [List.getD_eq_getElem l d h]
  exact List.getElem_mem h

theorem visitBinary_mkSt (op : ShBinOp) (cmds : List ParsedCommand) (ops : List String) :
    visitBinary op (mkSt cmds ops) = mkSt cmds (ops ++ [opStr op]) := by
  unfold visitBinary mkSt
  simp only [applyOps_length, List.length_append, List.length_cons, List.length_nil]
  rcases Nat.lt_or_ge ops.length cmds.length with hlt | hge
  · rw [if_pos]
    · rw [Nat.min_eq_left (Nat.le_of_lt hlt), applyOps_append_lt cmds ops _ hlt,
        Nat.min_eq_left (Nat.succ_le_of_lt hlt)]
    · rw [Nat.min_eq_left (Nat.le_of_lt hlt)]
      exact hlt
  · rw [if_neg]
    · rw [applyOps_append_ge cmds ops _ hge, Nat.min_eq_right hge,
        Nat.min_eq_right (Nat.le_succ_of_le hge)]
    · rw [Nat.min_eq_right hge]
      exact Nat.lt_irrefl _

theorem visitStmt_mkSt (cmds : List ParsedCommand) (ops : List String)
    (hops : ∀ o ∈ ops, o ≠ "") :
    visitStmt (mkSt cmds ops) = mkSt cmds ops := by
  unfold visitStmt
  rw [if_neg]
  intro hcond
  rw [Bool.and_eq_true, Bool.and_eq_true] at hcond
  obtain ⟨⟨h1, h2⟩, h3⟩ := hcond
  rw [decide_eq_true_eq] at h1 h2
  rw [beq_iff_eq] at h3
  simp only [mkSt, applyOps_length] at h1 h2 h3
  rcases Nat.le_total ops.length cmds.length with hle | hle
  · rw [Nat.min_eq_left hle] at h1 h2 h3
    have hj1 : ops.length - 1 < ops.length := by omega
    have hj2 : ops.length - 1 < cmds.length := by omega
    rw [applyOps_getD cmds ops _ hj1 hj2] at h3
    exact hops _ (getD_mem_of_lt ops _ "" hj1) h3
  · rw [Nat.min_eq_right hle] at h2
    exact absurd h2 (Nat.lt_irrefl _)

theorem opStr_mem (op : ShBinOp) : opStr op ∈ ["&&", "||", "|", "|&"] := by
  cases op <;> simp [opStr]

theorem mem_binop_strings_ne_empty (o : String) (h : o ∈ ["&&", "||", "|", "|&"]) :
    o ≠ "" := by
  simp only [List.mem_cons, List.not_mem_nil, or_false] at h
  rcases h with rfl | rfl | rfl | rfl <;> decide

mutual
theorem binOpsStmt_mem : ∀ (s : ShStmt), ∀ o ∈ binOpsStmt s, o ∈ ["&&", "||", "|", "|&"]
  | .mk _ c => binOpsCmd_mem c

theorem binOpsCmd_mem : ∀ (c : ShCmd), ∀ o ∈ binOpsCmd c, o ∈ ["&&", "||", "|", "|&"]
  | .call args => by simp [binOpsCmd]
  | .nocmd => by simp [binOpsCmd]
  | .binary op l r => by
    intro o ho
    simp only [binOpsCmd, List.mem_cons, List.mem_append] at ho
    rcases ho with rfl | h | h
    · exact opStr_mem op
    · exact binOpsStmt_mem l o h
    · exact binOpsStmt_mem r o h
end

theorem binOpsStmt_ne_empty (s : ShStmt) : ∀ o ∈ binOpsStmt s, o ≠ "" :=
  fun o h => mem_binop_strings_ne_empty o (binOpsStmt_mem s o h)

mutual
theorem walk2Stmt_mkSt : ∀ (s : ShStmt) (cmds : List ParsedCommand) (ops : List String),
    (∀ o ∈ ops, o ≠ "") →
    walk2Stmt s (mkSt cmds ops) = mkSt cmds (ops ++ binOpsStmt s)
  | .mk bg c, cmds, ops, hops => by
    show walk2Cmd c (visitStmt (mkSt cmds ops)) = mkSt cmds (ops ++ binOpsStmt (.mk bg c))
    rw [visitStmt_mkSt cmds ops hops, walk2Cmd_mkSt c cmds ops hops]
    rfl

theorem walk2Cmd_mkSt : ∀ (c : ShCmd) (cmds : List ParsedCommand) (ops : List String),
    (∀ o ∈ ops, o ≠ "") →
    walk2Cmd c (mkSt cmds ops) = mkSt cmds (ops ++ binOpsCmd c)
  | .call args, cmds, ops, _hops => by simp [walk2Cmd, binOpsCmd]
  | .nocmd, cmds, ops, _hops => by simp [walk2Cmd, binOpsCmd]
  | .binary op l r, cmds, ops, hops => by
    show walk2Stmt r (walk2Stmt l (visitBinary op (mkSt cmds ops))) = _
    rw [visitBinary_mkSt op cmds ops]
    have hops1 : ∀ o ∈ ops ++ [opStr op], o ≠ "" := by
      intro o ho
      rcases List.mem_append.mp ho with h | h
      · exact hops o h
      · rw [List.mem_singleton.mp h]
        exact mem_binop_strings_ne_empty _ (opStr_mem op)
    rw [walk2Stmt_mkSt l cmds (ops ++ [opStr op]) hops1]
    have hops2 : ∀ o ∈ ops ++ [opStr op] ++ binOpsStmt l, o ≠ "" := by
      intro o ho
      rcases List.mem_append.mp ho with h | h
      · exact hops1 o h
      · exact binOpsStmt_ne_empty l o h
    rw [walk2Stmt_mkSt r cmds (ops ++ [opStr op] ++ binOpsStmt l) hops2]
    show _ = mkSt cmds (ops ++ (opStr op :: (binOpsStmt l ++ binOpsStmt r)))
    rw [List.append_assoc, List.append_assoc]
    rfl
end

theorem foldl_collect_ops (f : ShStmt → List String) :
    ∀ (l : List ShStmt) (a : List String),
    l.foldl (fun acc s => acc ++ f s) a = a ++ l.foldl (fun acc s => acc ++ f s) [] := by
  intro l
  induction l with
  | nil => simp
  | cons s ss ih =>
    intro a
    simp only [List.foldl_cons, List.nil_append]
    rw [ih (a ++ f s), ih (f s), List.append_assoc]

theorem walk2File_mkSt : ∀ (stmts : List ShStmt) (cmds : List ParsedCommand)
    (ops : List String), (∀ o ∈ ops, o ≠ "") →
    stmts.foldl (fun st s => walk2Stmt s st) (mkSt cmds ops) =
      mkSt cmds (ops ++ stmts.foldl (fun acc s => acc ++ binOpsStmt s) []) := by
  intro stmts
  induction stmts with
  | nil => intro cmds ops _; simp
  | cons s ss ih =>
    intro cmds ops hops
    simp only [List.foldl_cons, List.nil_append]
    rw [walk2Stmt_mkSt s cmds ops hops]
    have hops1 : ∀ o ∈ ops ++ binOpsStmt s, o ≠ "" := by
      intro o ho
      rcases List.mem_append.mp ho with h | h
      · exact hops o h
      · exact binOpsStmt_ne_empty s o h
    rw [ih cmds (ops ++ binOpsStmt s) hops1]
    rw [foldl_collect_ops binOpsStmt ss (binOpsStmt s), List.append_assoc]

/-- The second walk of `extractWithOperators` assigns the pre-order
`BinaryCmd` operator list elementwise onto the collected commands; in
particular the `";"` branch of its `*syntax.Stmt` case never fires. -/
theorem extractWithOperators_spec (f : ShFile) :
    extractWithOperators f (collectFile f) =
      applyOps (collectFile f) (binOpsFile f) := by
  unfold extractWithOperators
  by_cases h : (collectFile f).isEmpty = true
  · rw [if_pos h]
    have he : collectFile f = [] := List.isEmpty_iff.mp h
    rw [he]
    rfl
  · rw [if_neg h]
    have h0 : ({ result := collectFile f, idx := 0 } : OpState) =
        mkSt (collectFile f) [] := by
      simp [mkSt, applyOps_nil_ops]
    rw [h0, walk2File_mkSt f.stmts (collectFile f) [] (by simp)]
    simp only [mkSt, List.nil_append]
    rfl

theorem applyOps_operator_mem (P : String → Prop) :
    ∀ (cmds : List ParsedCommand) (ops : List String),
    (∀ c ∈ cmds, P c.Operator) → (∀ o ∈ ops, P o) →
    ∀ c ∈ applyOps cmds ops, P c.Operator := by
  intro cmds
  induction cmds with
  | nil => intro ops _ _ c hc; simp [applyOps] at hc
  | cons c0 cs ih =>
    intro ops hcmds hops c hc
    cases ops with
    | nil =>
      rw [applyOps] at hc
      exact hcmds c hc
    | cons o os =>
      rw [applyOps, List.mem_cons] at hc
      rcases hc with rfl | hc
      · exact hops o (List.mem_cons_self _ _)
      · exact ih os (fun x hx => hcmds x (List.mem_cons_of_mem _ hx))
          (fun x hx => hops x (List.mem_cons_of_mem _ hx)) c hc

mutual
theorem collectStmt_operator : ∀ (s : ShStmt) (acc : List ParsedCommand),
    (∀ c ∈ acc, c.Operator = "") → ∀ c ∈ collectStmt s acc, c.Operator = ""
  | .mk _ cnode, acc, hacc => collectCmd_operator cnode acc hacc

theorem collectCmd_operator : ∀ (cnode : ShCmd) (acc : List ParsedCommand),
    (∀ c ∈ acc, c.Operator = "") → ∀ c ∈ collectCmd cnode acc, c.Operator = ""
  | .call args, acc, hacc => by
    intro c hc
    simp only [collectCmd] at hc
    by_cases hne : ((extractCommand args).Name != "") = true
    · rw [if_pos hne] at hc
      rcases List.mem_append.mp hc with h | h
      · exact hacc c h
      · rw [List.mem_singleton.mp h]
        rfl
    · rw [if_neg hne] at hc
      exact hacc c hc
  | .binary _ l r, acc, hacc => by
    intro c hc
    exact collectStmt_operator r _ (collectStmt_operator l acc hacc) c hc
  | .nocmd, acc, hacc => hacc
end

theorem collectFile_operator (f : ShFile) :
    ∀ c ∈ collectFile f, c.Operator = "" := by
  unfold collectFile
  have : ∀ (l : List ShStmt) (acc : List ParsedCommand),
      (∀ c ∈ acc, c.Operator = "") →
      ∀ c ∈ l.foldl (fun acc s => collectStmt s acc) acc, c.Operator = "" := by
    intro l
    induction l with
    | nil => intro acc hacc; exact hacc
    | cons s ss ih =>
      intro acc hacc
      simp only [List.foldl_cons]
      exact ih (collectStmt s acc) (collectStmt_operator s acc hacc)
  exact this f.stmts [] (by simp)

theorem binOpsFile_mem (f : ShFile) :
    ∀ o ∈ binOpsFile f, o ∈ ["&&", "||", "|", "|&"] := by
  unfold binOpsFile
  have : ∀ (l : List ShStmt) (a : List String),
      (∀ o ∈ a, o ∈ ["&&", "||", "|", "|&"]) →
      ∀ o ∈ l.foldl (fun acc s => acc ++ binOpsStmt s) a, o ∈ ["&&", "||", "|", "|&"] := by
    intro l
    induction l with
    | nil => intro a ha; exact ha
    | cons s ss ih =>
      intro a ha
      simp only [List.foldl_cons]
      refine ih (a ++ binOpsStmt s) ?_
      intro o ho
      rcases List.mem_append.mp ho with h | h
      · exact ha o h
      · exact binOpsStmt_mem s o h
  exact this f.stmts [] (by simp)

/-- The model of the statement `a; b`: two call statements in the file,
joined by a semicolon. -/
def fileSemiAB : ShFile :=
  { stmts := [.mk false (.call ["a"]), .mk false (.call ["b"])] }

/-- C6, evaluated at the failing input: for `a; b` the claim requires
the first command's Operator to be `";"`, but the code leaves both
operators empty; and in general every operator the walk attaches is one
of `&&`, `||`, `|`, `|&` or `""` — the `";"` assignment of
`extractWithOperators` is unreachable. -/
theorem operator_attachment_code_eval :
    ((parseCommandsModel fileSemiAB).map (fun c => c.Operator) = ["", ""]) ∧
    (∀ f : ShFile, ∀ c ∈ parseCommandsModel f,
      c.Operator ∈ ["&&", "||", "|", "|&", ""]) := by
  refine ⟨by decide, ?_⟩
  intro f c hc
  rw [parseCommandsModel, extractWithOperators_spec] at hc
  refine applyOps_operator_mem (fun o => o ∈ ["&&", "||", "|", "|&", ""])
    (collectFile f) (binOpsFile f) ?_ ?_ c hc
  · intro x hx
    rw [collectFile_operator f x hx]
    simp
  · intro o ho
    have := binOpsFile_mem f o ho
    simp only [List.mem_cons, List.mem_singleton] at this ⊢
    tauto

/-- Witness for C6's evaluation theorem: the first command of the
misaligned example `a; b && c` carries `&&` (attached to the wrong
command), which is in the attachable-operator set. -/
def fileMix : ShFile :=
  { stmts := [.mk false (.call ["a"]),
              .mk false (.binary .andStmt (.mk false (.call ["b"]))
                (.mk false (.call ["c"])))] }

/-- Witness applying the general part of C6's theorem at a concrete
command of `a; b && c`. -/
theorem operator_attachment_code_eval_witness :
    ({ Name := "a", Args := ["a"], Raw := "a", Operator := "&&" } : ParsedCommand) ∈
      parseCommandsModel fileMix ∧
    ({ Name := "a", Args := ["a"], Raw := "a", Operator := "&&" } : ParsedCommand).Operator ∈
      ["&&", "||", "|", "|&", ""] :=
  ⟨by decide, operator_attachment_code_eval.2 fileMix _ (by decide)⟩

end Hook
